import Mathlib

/-!
# fileshare — verification of the spec's claims against the code

Shallow embedding of `main.go` of sjqzhang/fileshare: the server's path
containment check and the `/download` and `/list` handlers, the client's
download-state ledger (`loadDownloadState` / `saveDownloadState`), the
single-file transfer (`downloadFile`), and the concurrent batch
orchestrator (`downloadDirectory`).
-/

namespace Fileshare

/-! ## Path resolution (server, `main.go` lines 129–135 and 164–170)

The Go handlers compute `fullPath := filepath.Join(absPath, decodedPath)`
and admit the request iff `strings.HasPrefix(fullPath, absPath)`.
`filepath.Join(a, b)` is `filepath.Clean(a + "/" + b)`: the joined path is
lexically cleaned, removing `.` segments and resolving `..` segments
against the segments before them.  We embed absolute slash-separated Unix
paths as strings and implement the cleaning on the segment list. -/

/-- Split a character list at every occurrence of `c` (the splitting
underlying `filepath.Clean`, done structurally over the characters). -/
def splitOnChar (c : Char) : List Char → List (List Char)
  | [] => [[]]
  | x :: xs =>
    let rest := splitOnChar c xs
    if x = c then [] :: rest
    else
      match rest with
      | [] => [[x]]
      | r :: rs => (x :: r) :: rs

/-- Split a slash-separated path into its non-empty segments (empty
segments correspond to repeated slashes and are dropped, as
`filepath.Clean` does). -/
def splitPath (s : List Char) : List (List Char) :=
  (splitOnChar '/' s).filter (fun seg => seg ≠ [])

/-- Lexical cleaning of an absolute path's segment list, as
`filepath.Clean` does for rooted paths: `.` is dropped, `..` removes the
previous segment (and is dropped at the root, since the path is rooted). -/
def cleanSegs (segs : List (List Char)) : List (List Char) :=
  segs.foldl
    (fun acc seg =>
      if seg = ['.'] then acc
      else if seg = ['.', '.'] then acc.dropLast
      else acc ++ [seg])
    []

/-- Rebuild an absolute path from cleaned segments. -/
def joinSegs (segs : List (List Char)) : List Char :=
  '/' :: (segs.intersperse ['/']).flatten

/-- `filepath.Join(absPath, rel)` for an absolute `absPath`:
clean the concatenation `absPath ++ "/" ++ rel`. -/
def filepathJoin (absPath rel : String) : String :=
  ⟨joinSegs (cleanSegs (splitPath (absPath.data ++ '/' :: rel.data)))⟩

/-- The server's containment check (`main.go` lines 132 and 167):
`strings.HasPrefix(filepath.Join(absPath, decodedPath), absPath)`.
`true` means the request is admitted; `false` means HTTP 403. -/
def serverAdmits (absPath decodedPath : String) : Bool :=
  absPath.data.isPrefixOf (filepathJoin absPath decodedPath).data

/-- Modelled from the spec: the separator-terminated containment rule of
§4.1 — the resolved path is inside the root iff it is the root itself or
begins with the root followed by a path separator. -/
def specContained (absPath decodedPath : String) : Bool :=
  let fullPath := filepathJoin absPath decodedPath
  fullPath = absPath || (absPath.data ++ ['/']).isPrefixOf fullPath.data

/-! ## The transfer ledger (client, `main.go` lines 37–39 and 220–236)

`DownloadState` is `{ Files map[string]int64 }`, persisted as JSON in the
resume file.  We embed the map as an association list, and the persisted
file as an optional JSON value: `none` models an absent or unreadable file
(`os.ReadFile` error), and a `RawData.malformed` content models bytes that
are not valid JSON.  Go's `json.Unmarshal` validates the whole input
before decoding, so on a syntax error the pre-initialised empty state is
returned unchanged, which the embedding reflects. -/

/-- A JSON value, as far as the ledger's shape needs. -/
inductive Json where
  | num (n : Int)
  | str (s : String)
  | obj (fields : List (String × Json))

/-- The contents of the resume file: either well-formed JSON or bytes
`json.Unmarshal` rejects as syntactically invalid. -/
inductive RawData where
  | wellFormed (j : Json)
  | malformed

/-- `DownloadState` (`main.go` lines 37–39): the map from relative path to
last fully-transferred byte count, embedded as an association list. -/
structure DownloadState where
  Files : List (String × Int)
  deriving DecidableEq

/-- Map update `state.Files[filePath] = written`: replace the entry if the
key is present, append it otherwise. -/
def setEntry (files : List (String × Int)) (key : String) (v : Int) :
    List (String × Int) :=
  if files.any (fun p => p.1 = key) then
    files.map (fun p => if p.1 = key then (key, v) else p)
  else
    files ++ [(key, v)]

/-- `json.Marshal` of a `DownloadState`: `{"files": {path: size, ...}}`. -/
def marshalState (s : DownloadState) : Json :=
  .obj [("files", .obj (s.Files.map (fun p => (p.1, .num p.2))))]

/-- `json.Unmarshal` of a `DownloadState` from a JSON value: read the
`files` field as an object of numbers; fields of the wrong shape
contribute nothing to the map. -/
def unmarshalState (j : Json) : DownloadState :=
  match j with
  | .obj fields =>
    match fields.lookup "files" with
    | some (.obj entries) =>
      ⟨entries.filterMap (fun p =>
        match p.2 with
        | .num n => some (p.1, n)
        | _ => none)⟩
    | _ => ⟨[]⟩
  | _ => ⟨[]⟩

/-- `loadDownloadState` (`main.go` lines 220–229): start from the empty
state; if the resume file reads successfully, unmarshal it (a malformed
file leaves the pre-initialised empty state untouched). Never fails. -/
def loadDownloadState (fileContents : Option RawData) : DownloadState :=
  match fileContents with
  | none => ⟨[]⟩
  | some .malformed => ⟨[]⟩
  | some (.wellFormed j) => unmarshalState j

/-- `saveDownloadState` (`main.go` lines 231–236): marshal the state and
write it to the resume file (marshalling a map never fails). -/
def saveDownloadState (s : DownloadState) : Option RawData :=
  some (.wellFormed (marshalState s))

/-! ## Single-file transfer (client, `main.go` lines 238–308)

`downloadFile` performs HTTP and filesystem effects; the embedding passes
the environment's outcomes explicitly: the HTTP response (absent on a
transport error), whether `os.MkdirAll` and `os.Create` succeed, and
whether `io.Copy` fails part-way.  The mutable world it touches is the
persisted ledger file and the local file at the target path; both are
threaded in and out. -/

/-- The HTTP response to the GET: status code, `resp.ContentLength`
(`-1` when the length is unknown, as in Go), and the body bytes that the
server actually delivers (which may be fewer than `ContentLength`
advertises if the transfer is truncated). -/
structure HttpResponse where
  statusCode : Nat
  contentLength : Int
  body : List Nat

/-- Outcomes of the effectful calls `downloadFile` makes, fixed by the
environment: request construction, the GET itself, `os.MkdirAll`,
`os.Create`, and `io.Copy` (`copyErrAt = some k` means the copy fails
after writing `k` bytes). -/
structure TransferEnv where
  reqOk : Bool
  resp : Option HttpResponse
  mkdirOk : Bool
  createOk : Bool
  copyErrAt : Option Nat

/-- Which `return` of `downloadFile` was taken. -/
inductive TransferOutcome where
  | reqFailed
  | getFailed
  | badStatus (code : Nat)
  | mkdirFailed
  | skipped
  | createFailed
  | copyFailed
  | sizeMismatch
  | success (written : Int)

/-- The state `downloadFile` leaves behind: the persisted ledger file,
the local file at the target path (`none` = no file on disk), and the
outcome. -/
structure TransferResult where
  ledgerFile : Option RawData
  localFile : Option (List Nat)
  outcome : TransferOutcome

/-- `downloadFile` (`main.go` lines 238–308), following the Go control
flow: load the ledger; build and issue the GET (either may fail); non-200
status aborts; `totalSize := resp.ContentLength`; `os.MkdirAll` failure
aborts; if a local file exists and `totalSize > 0 && size == totalSize`,
skip (success, nothing written); `os.Create` truncates and `io.Copy`
writes the body (a copy error leaves the partial file); if
`totalSize > 0 && written != totalSize`, report the mismatch, keeping the
file; otherwise record `{path: written}` in the ledger and persist it. -/
def downloadFile (env : TransferEnv) (filePath : String)
    (ledgerFile : Option RawData) (localFile : Option (List Nat)) :
    TransferResult :=
  let state := loadDownloadState ledgerFile
  if env.reqOk then
    match env.resp with
    | none => ⟨ledgerFile, localFile, .getFailed⟩
    | some resp =>
      if resp.statusCode ≠ 200 then
        ⟨ledgerFile, localFile, .badStatus resp.statusCode⟩
      else
        let totalSize := resp.contentLength
        if env.mkdirOk then
          let skip : Bool :=
            match localFile with
            | some contents =>
              decide (0 < totalSize ∧ (contents.length : Int) = totalSize)
            | none => false
          if skip then ⟨ledgerFile, localFile, .skipped⟩
          else if env.createOk then
            match env.copyErrAt with
            | some k => ⟨ledgerFile, some (resp.body.take k), .copyFailed⟩
            | none =>
              let written : Int := resp.body.length
              if 0 < totalSize ∧ written ≠ totalSize then
                ⟨ledgerFile, some resp.body, .sizeMismatch⟩
              else
                ⟨saveDownloadState ⟨setEntry state.Files filePath written⟩,
                  some resp.body, .success written⟩
          else ⟨ledgerFile, localFile, .createFailed⟩
        else ⟨ledgerFile, localFile, .mkdirFailed⟩
  else ⟨ledgerFile, localFile, .reqFailed⟩

/-! ## The server's filesystem and the `/list` and `/download` handlers
(`main.go` lines 119–211)

The filesystem under the root is a tree; `ioErr` marks an entry whose
`os.Stat`/`os.Lstat` fails (an I/O error).  Client paths are embedded as
segment lists; both handlers run after the containment check of
`serverAdmits`, so these definitions take the decoded relative path. -/

/-- A filesystem node: a regular file with its content bytes, a directory
with named entries, or an entry whose stat fails with an I/O error. -/
inductive Fs where
  | file (content : List Nat)
  | dir (entries : List (String × Fs))
  | ioErr

/-- `os.Stat` resolution of a relative path under a tree: follow the
segments through directory entries; `none` means the stat fails because
the path does not exist. -/
def Fs.find? : Fs → List String → Option Fs
  | t, [] => some t
  | .dir es, n :: rest =>
    (match es.lookup n with
     | some t => t.find? rest
     | none => none)
  | .file _, _ :: _ => none
  | .ioErr, _ :: _ => none

/-- A listing entry as the handler emits it: the path relative to the
configured root (as segments) and the size `info.Size()` observed by the
walk. -/
structure FileRec where
  path : List String
  size : Nat
  deriving DecidableEq

mutual

/-- `filepath.Walk` as the `/list` handler drives it (`main.go` lines
188–203): visit the node at root-relative prefix `pre`; an I/O error
aborts the whole walk (the callback returns the error), a file emits one
record with its root-relative path and size, a directory emits nothing
itself and walks its entries. -/
def walkFiles (pre : List String) : Fs → Except Unit (List FileRec)
  | .ioErr => .error ()
  | .file content => .ok [⟨pre, content.length⟩]
  | .dir es => walkEntries pre es

/-- Walk the named entries of a directory at prefix `pre`, in order,
concatenating the records; any error aborts the walk. -/
def walkEntries (pre : List String) : List (String × Fs) → Except Unit (List FileRec)
  | [] => .ok []
  | (n, t) :: rest =>
    match walkFiles (pre ++ [n]) t, walkEntries pre rest with
    | .ok l, .ok r => .ok (l ++ r)
    | .error e, _ => .error e
    | _, .error e => .error e

end

mutual

/-- Does the subtree contain a node whose stat fails during the walk? -/
def Fs.hasErr : Fs → Bool
  | .ioErr => true
  | .file _ => false
  | .dir es => hasErrEntries es

/-- `Fs.hasErr` over a directory's entries. -/
def hasErrEntries : List (String × Fs) → Bool
  | [] => false
  | (_, t) :: rest => t.hasErr || hasErrEntries rest

end

mutual

/-- A well-formed tree: sibling entry names are distinct at every level
(so a path denotes at most one entry, as a real directory does). -/
def Fs.wfB : Fs → Bool
  | .file _ => true
  | .ioErr => true
  | .dir es => decide (es.map Prod.fst).Nodup && wfEntriesB es

/-- `Fs.wfB` over a directory's entries. -/
def wfEntriesB : List (String × Fs) → Bool
  | [] => true
  | (_, t) :: rest => t.wfB && wfEntriesB rest

end

/-- The regular files of a subtree, located by their segment path: the
node reached by following `p` through directory entries is the file with
content `c`, of size `c.length`.  Directories never satisfy this. -/
inductive Fs.isFileAt : Fs → List String → Nat → Prop where
  | file (c : List Nat) : (Fs.file c).isFileAt [] c.length
  | dir (es : List (String × Fs)) (n : String) (t : Fs) (p : List String)
      (sz : Nat) (hl : es.lookup n = some t) (ht : t.isFileAt p sz) :
      (Fs.dir es).isFileAt (n :: p) sz

/-- Responses of the `/list` handler past the containment check. -/
inductive ListResponse where
  | notFound
  | badRequest
  | serverError
  | ok (files : List FileRec)
  deriving DecidableEq

/-- The `/list` handler (`main.go` lines 154–211), past the containment
check: `os.Stat` failure is 404; a non-directory is 400; an I/O error in
the walk aborts with 500 and no partial results; otherwise 200 with the
walked records. -/
def listHandler (root : Fs) (rel : List String) : ListResponse :=
  match root.find? rel with
  | none => .notFound
  | some .ioErr => .notFound
  | some (.file _) => .badRequest
  | some (.dir es) =>
    match walkFiles rel (.dir es) with
    | .error _ => .serverError
    | .ok files => .ok files

/-- Responses of the `/download` handler past the containment check:
the 200 response carries the explicitly set `Content-Length` header and
the streamed body. -/
inductive DownloadResponse where
  | notFound
  | badRequest
  | okFile (contentLength : Nat) (body : List Nat)
  deriving DecidableEq

/-- The `/download` handler (`main.go` lines 119–151), past the
containment check: `os.Stat` failure is 404; a directory is 400; a file
is streamed in full with the `Content-Length` header set to
`info.Size()`, the size at the time of the stat. -/
def downloadHandler (root : Fs) (rel : List String) : DownloadResponse :=
  match root.find? rel with
  | none => .notFound
  | some .ioErr => .notFound
  | some (.dir _) => .badRequest
  | some (.file content) => .okFile content.length content

/-! ## The batch-download orchestrator (client, `main.go` lines 310–367)

`downloadDirectory` creates `tasks := make(chan FileInfo, len(files))`,
starts `concurrency` worker goroutines that `range` over the channel and
run `downloadFile` per task, then enqueues every file, closes the
channel, and blocks in `wg.Wait()` until every worker has returned.  The
embedding is a small-step transition system over the interleavings of the
main goroutine (enqueue, close) and the workers (dequeue-and-process,
exit): a send never blocks because the channel's capacity equals the file
count; a receive takes the buffered head; a `range` loop ends — the
worker exits — once the channel is empty and closed. -/

/-- `FileInfo` (`main.go` lines 32–35): one listed file, as the
orchestrator queues it. -/
structure GoFileInfo where
  Path : String
  Size : Int
  deriving DecidableEq

/-- A state of the orchestrator run: the files the main goroutine has not
yet sent, the channel buffer, whether the channel is closed, how many
workers are still in their `range` loop, how many have returned, and the
`downloadFile` invocations so far in dequeue order. -/
structure PoolState where
  pending : List GoFileInfo
  queue : List GoFileInfo
  closed : Bool
  running : Nat
  done : Nat
  processed : List GoFileInfo
  deriving DecidableEq

/-- The state right after the `concurrency` workers are started
(`main.go` lines 350–358): all files still to enqueue, empty open
channel, `c` workers running, nothing processed. -/
def initPool (files : List GoFileInfo) (c : Nat) : PoolState :=
  ⟨files, [], false, c, 0, []⟩

/-- One interleaved step of the orchestrator run:
`enqueue` is the main goroutine sending the next file (lines 360–362,
never blocking since the buffer holds all files); `close` closes the
channel after the loop (line 363); `dequeue` is a running worker
receiving the buffered head and running `downloadFile` on it (lines
354–356); `exit` is a worker leaving its `range` loop once the channel
is empty and closed (line 357). -/
inductive PoolStep : PoolState → PoolState → Prop where
  | enqueue (f : GoFileInfo) (rest q : List GoFileInfo) (r d : Nat)
      (p : List GoFileInfo) :
      PoolStep ⟨f :: rest, q, false, r, d, p⟩ ⟨rest, q ++ [f], false, r, d, p⟩
  | close (q : List GoFileInfo) (r d : Nat) (p : List GoFileInfo) :
      PoolStep ⟨[], q, false, r, d, p⟩ ⟨[], q, true, r, d, p⟩
  | dequeue (pend : List GoFileInfo) (f : GoFileInfo) (q : List GoFileInfo)
      (c : Bool) (r d : Nat) (p : List GoFileInfo) (hr : 0 < r) :
      PoolStep ⟨pend, f :: q, c, r, d, p⟩ ⟨pend, q, c, r, d, p ++ [f]⟩
  | exit (pend : List GoFileInfo) (r d : Nat) (p : List GoFileInfo)
      (hr : 0 < r) :
      PoolStep ⟨pend, [], true, r, d, p⟩ ⟨pend, [], true, r - 1, d + 1, p⟩

/-- The states an orchestrator run over `files` with `c` workers can
reach, under every interleaving. -/
def PoolReach (files : List GoFileInfo) (c : Nat) (s : PoolState) : Prop :=
  Relation.ReflTransGen PoolStep (initPool files c) s

/-! ## Helper lemmas -/

/-- Invariant of every reachable orchestrator state: tasks are conserved
across pending, buffered and processed; the worker counts sum to the pool
size; the channel is closed only after every task is enqueued; and once
any worker has exited, the channel is closed and drained for good. -/
theorem poolReach_invariant {files : List GoFileInfo} {c : Nat} {s : PoolState}
    (h : PoolReach files c s) :
    ((s.pending : Multiset GoFileInfo) + ↑s.queue + ↑s.processed =
      (files : Multiset GoFileInfo))
    ∧ s.running + s.done = c
    ∧ (s.closed = true → s.pending = [])
    ∧ (0 < s.done → s.closed = true ∧ s.queue = []) := by
  induction h with
  | refl => simp [initPool]
  | tail hreach hstep ih =>
    obtain ⟨hcons, hw, hcp, hdc⟩ := ih
    cases hstep with
    | enqueue f rest q r d p =>
      refine ⟨?_, hw, by simp, fun hd => absurd (hdc hd).1 (by simp)⟩
      rw [← hcons]
      simp only [← Multiset.cons_coe, ← Multiset.coe_add, ← Multiset.singleton_add,
        Multiset.coe_nil]
      abel
    | close q r d p =>
      exact ⟨hcons, hw, fun _ => rfl, fun hd => absurd (hdc hd).1 (by simp)⟩
    | dequeue pend f q cl r d p hr =>
      refine ⟨?_, hw, hcp, fun hd => absurd (hdc hd).2 (by simp)⟩
      rw [← hcons]
      simp only [← Multiset.cons_coe, ← Multiset.coe_add, ← Multiset.singleton_add,
        Multiset.coe_nil]
      abel
    | exit pend r d p hr =>
      refine ⟨hcons, ?_, hcp, fun _ => ⟨rfl, rfl⟩⟩
      dsimp only at hw ⊢
      omega

/-- An `ioErr` node holds no file. -/
theorem isFileAt_ioErr_iff (p : List String) (sz : Nat) :
    Fs.ioErr.isFileAt p sz ↔ False := by
  constructor
  · intro h; cases h
  · intro h; cases h

/-- The only file of a file node is itself, at the empty path. -/
theorem isFileAt_file_iff (c : List Nat) (p : List String) (sz : Nat) :
    (Fs.file c).isFileAt p sz ↔ p = [] ∧ sz = c.length := by
  constructor
  · intro h; cases h; exact ⟨rfl, rfl⟩
  · rintro ⟨rfl, rfl⟩; exact .file c

/-- A file of a directory lies under one of its named entries. -/
theorem isFileAt_dir_iff (es : List (String × Fs)) (p : List String) (sz : Nat) :
    (Fs.dir es).isFileAt p sz ↔
      ∃ n t p', p = n :: p' ∧ es.lookup n = some t ∧ t.isFileAt p' sz := by
  constructor
  · intro h
    cases h with
    | dir es n t p' sz hl ht => exact ⟨n, t, p', rfl, hl, ht⟩
  · rintro ⟨n, t, p', rfl, hl, ht⟩
    exact .dir es n t p' sz hl ht

/-- A successful lookup means the key occurs among the entry names. -/
theorem lookup_some_mem_keys {es : List (String × Fs)} {n : String} {t : Fs}
    (h : es.lookup n = some t) : n ∈ es.map Prod.fst := by
  induction es with
  | nil => cases h
  | cons e rest ih =>
    obtain ⟨k, v⟩ := e
    by_cases hk : n = k
    · simp [hk]
    · simp only [List.lookup, beq_iff_eq, if_neg hk] at h
      rw [beq_false_of_ne hk] at h
      simp only [List.map_cons, List.mem_cons]
      exact Or.inr (ih h)

mutual

/-- The walk fails exactly when the subtree contains an I/O error. -/
theorem walkFiles_error_iff (pre : List String) (t : Fs) :
    walkFiles pre t = .error () ↔ t.hasErr = true := by
  cases t with
  | ioErr => simp [walkFiles, Fs.hasErr]
  | file c => simp [walkFiles, Fs.hasErr]
  | dir es =>
    rw [walkFiles, Fs.hasErr]
    exact walkEntries_error_iff pre es

/-- `walkFiles_error_iff` over a directory's entries. -/
theorem walkEntries_error_iff (pre : List String) (es : List (String × Fs)) :
    walkEntries pre es = .error () ↔ hasErrEntries es = true := by
  cases es with
  | nil => simp [walkEntries, hasErrEntries]
  | cons e rest =>
    obtain ⟨n, t⟩ := e
    rw [walkEntries, hasErrEntries]
    have h1 := walkFiles_error_iff (pre ++ [n]) t
    have h2 := walkEntries_error_iff pre rest
    cases hw1 : walkFiles (pre ++ [n]) t with
    | error e => cases e; simp [hw1] at h1; simp [← h1, Bool.true_or]
    | ok l1 =>
      cases hw2 : walkEntries pre rest with
      | error e =>
        cases e
        simp [hw1] at h1
        simp [hw2] at h2
        simp [← h2, h1]
      | ok l2 =>
        simp [hw1] at h1
        simp [hw2] at h2
        simp [h1, h2]

end

mutual

/-- A successful walk of a well-formed subtree at prefix `pre` lists
exactly the subtree's files: a record is in the output iff its path is
`pre` extended by the location of a file of that subtree, with the file's
size. -/
theorem walkFiles_mem (pre : List String) (t : Fs) (l : List FileRec)
    (h : walkFiles pre t = .ok l) (hwf : t.wfB = true) (r : FileRec) :
    r ∈ l ↔ ∃ p, r.path = pre ++ p ∧ t.isFileAt p r.size := by
  cases t with
  | ioErr => simp [walkFiles] at h
  | file c =>
    rw [walkFiles] at h
    obtain rfl : l = [⟨pre, c.length⟩] := by cases h; rfl
    constructor
    · intro hr
      simp at hr
      exact ⟨[], by simp [hr], by rw [hr]; exact .file c⟩
    · rintro ⟨p, hp, hf⟩
      rw [isFileAt_file_iff] at hf
      obtain ⟨rfl, hsz⟩ := hf
      simp at hp
      have : r = ⟨pre, c.length⟩ := by
        cases r; simp_all
      simp [this]
  | dir es =>
    rw [walkFiles] at h
    rw [Fs.wfB, Bool.and_eq_true, decide_eq_true_eq] at hwf
    obtain ⟨hnd, hwfe⟩ := hwf
    rw [walkEntries_mem pre es l h hnd hwfe r]
    constructor
    · rintro ⟨n, t, p, hl, hp, hf⟩
      exact ⟨n :: p, hp, (isFileAt_dir_iff es (n :: p) r.size).2 ⟨n, t, p, rfl, hl, hf⟩⟩
    · rintro ⟨p, hp, hf⟩
      rw [isFileAt_dir_iff] at hf
      obtain ⟨n, t, p', rfl, hl, hf⟩ := hf
      exact ⟨n, t, p', hl, hp, hf⟩

/-- `walkFiles_mem` over a directory's entries: a record comes from the
(unique, by well-formedness) entry its path's next segment names. -/
theorem walkEntries_mem (pre : List String) (es : List (String × Fs)) (l : List FileRec)
    (h : walkEntries pre es = .ok l) (hnd : (es.map Prod.fst).Nodup)
    (hwf : wfEntriesB es = true) (r : FileRec) :
    r ∈ l ↔ ∃ n t p, es.lookup n = some t ∧ r.path = pre ++ n :: p ∧ t.isFileAt p r.size := by
  cases es with
  | nil =>
    rw [walkEntries] at h
    obtain rfl : l = [] := by cases h; rfl
    simp [List.lookup]
  | cons e rest =>
    obtain ⟨n, t⟩ := e
    rw [walkEntries] at h
    rw [wfEntriesB, Bool.and_eq_true] at hwf
    obtain ⟨hwt, hwr⟩ := hwf
    simp only [List.map_cons, List.nodup_cons] at hnd
    obtain ⟨hnmem, hndr⟩ := hnd
    cases hw1 : walkFiles (pre ++ [n]) t with
    | error e =>
      cases e
      cases hw2 : walkEntries pre rest with
      | error e2 => cases e2; rw [hw1, hw2] at h; cases h
      | ok l2 => rw [hw1, hw2] at h; cases h
    | ok l1 =>
      cases hw2 : walkEntries pre rest with
      | error e => rw [hw1, hw2] at h; cases e; cases h
      | ok l2 =>
        rw [hw1, hw2] at h
        obtain rfl : l = l1 ++ l2 := by cases h; rfl
        have ih1 := walkFiles_mem (pre ++ [n]) t l1 hw1 hwt r
        have ih2 := walkEntries_mem pre rest l2 hw2 hndr hwr r
        rw [List.mem_append, ih1, ih2]
        constructor
        · rintro (⟨p, hp, hf⟩ | ⟨m, t', p, hl, hp, hf⟩)
          · refine ⟨n, t, p, ?_, by simpa using hp, hf⟩
            simp [List.lookup]
          · refine ⟨m, t', p, ?_, hp, hf⟩
            have hmn : m ≠ n := by
              intro hmn
              exact hnmem (hmn ▸ lookup_some_mem_keys hl)
            simp [List.lookup, beq_false_of_ne hmn, hl]
        · rintro ⟨m, t', p, hl, hp, hf⟩
          by_cases hmn : m = n
          · subst hmn
            simp only [List.lookup, beq_self_eq_true] at hl
            obtain rfl : t = t' := by cases hl; rfl
            exact Or.inl ⟨p, by simpa using hp, hf⟩
          · right
            simp only [List.lookup, beq_false_of_ne hmn] at hl
            exact ⟨m, t', p, hl, hp, hf⟩

end

mutual

/-- A successful walk of a well-formed subtree emits no path twice. -/
theorem walkFiles_nodup (pre : List String) (t : Fs) (l : List FileRec)
    (h : walkFiles pre t = .ok l) (hwf : t.wfB = true) :
    (l.map FileRec.path).Nodup := by
  cases t with
  | ioErr => simp [walkFiles] at h
  | file c =>
    rw [walkFiles] at h
    obtain rfl : l = [⟨pre, c.length⟩] := by cases h; rfl
    simp
  | dir es =>
    rw [walkFiles] at h
    rw [Fs.wfB, Bool.and_eq_true, decide_eq_true_eq] at hwf
    exact walkEntries_nodup pre es l h hwf.1 hwf.2

/-- `walkFiles_nodup` over a directory's entries: records of distinct
entries have distinct paths because their next segments differ. -/
theorem walkEntries_nodup (pre : List String) (es : List (String × Fs))
    (l : List FileRec) (h : walkEntries pre es = .ok l)
    (hnd : (es.map Prod.fst).Nodup) (hwf : wfEntriesB es = true) :
    (l.map FileRec.path).Nodup := by
  cases es with
  | nil =>
    rw [walkEntries] at h
    obtain rfl : l = [] := by cases h; rfl
    simp
  | cons e rest =>
    obtain ⟨n, t⟩ := e
    rw [walkEntries] at h
    rw [wfEntriesB, Bool.and_eq_true] at hwf
    obtain ⟨hwt, hwr⟩ := hwf
    simp only [List.map_cons, List.nodup_cons] at hnd
    obtain ⟨hnmem, hndr⟩ := hnd
    cases hw1 : walkFiles (pre ++ [n]) t with
    | error e =>
      cases e
      cases hw2 : walkEntries pre rest with
      | error e2 => cases e2; rw [hw1, hw2] at h; cases h
      | ok l2 => rw [hw1, hw2] at h; cases h
    | ok l1 =>
      cases hw2 : walkEntries pre rest with
      | error e => rw [hw1, hw2] at h; cases e; cases h
      | ok l2 =>
        rw [hw1, hw2] at h
        obtain rfl : l = l1 ++ l2 := by cases h; rfl
        rw [List.map_append, List.nodup_append]
        refine ⟨walkFiles_nodup (pre ++ [n]) t l1 hw1 hwt,
          walkEntries_nodup pre rest l2 hw2 hndr hwr, ?_⟩
        intro x hx1 hx2
        simp only [List.mem_map] at hx1 hx2
        obtain ⟨r1, hr1, hxr1⟩ := hx1
        obtain ⟨r2, hr2, hxr2⟩ := hx2
        obtain ⟨p1, hp1, -⟩ := (walkFiles_mem (pre ++ [n]) t l1 hw1 hwt r1).1 hr1
        obtain ⟨m, t', p2, hl2, hp2, -⟩ :=
          (walkEntries_mem pre rest l2 hw2 hndr hwr r2).1 hr2
        have hmn : m ≠ n := fun hmn => hnmem (hmn ▸ lookup_some_mem_keys hl2)
        rw [← hxr1, hp1] at hxr2
        rw [List.append_assoc, List.singleton_append] at hxr2
        rw [hp2] at hxr2
        have := List.append_cancel_left hxr2
        simp at this
        exact hmn this.1

end

/-! ## The claims -/

/-- C1: the claim says both handlers reject every path resolving outside
the root by the separator-terminated rule, so a sibling directory sharing
the root's string prefix (root `/data/a`, target `/data/ab/...`) is
rejected.  The code's check is a naive `strings.HasPrefix` against the
bare root: for root `/data/a` and client path `../ab/x` the joined path
resolves to `/data/ab/x`, the code admits the request (no 403), yet the
separator-terminated containment rule of the spec rejects it. -/
theorem c1_naive_prefix_admits_sibling :
    filepathJoin "/data/a" "../ab/x" = "/data/ab/x"
    ∧ serverAdmits "/data/a" "../ab/x" = true
    ∧ specContained "/data/a" "../ab/x" = false :=
  ⟨by decide, by decide, by decide⟩

/-- C2: for every non-empty listing and worker count `c ≥ 1`, the
orchestrator starts exactly `c` workers, and in every reachable state
where all `c` workers have terminated (the state in which `wg.Wait`
returns and completion is reported), `downloadFile` has been invoked
exactly once per listed file — same multiset, same length, same count for
every file — under every interleaving. -/
theorem c2_orchestrator_each_file_once (files : List GoFileInfo) (c : Nat)
    (hc : 1 ≤ c) (hne : files ≠ []) (s : PoolState)
    (hreach : PoolReach files c s) (hdone : s.done = c) :
    (initPool files c).running = c
    ∧ s.running = 0
    ∧ (s.processed : Multiset GoFileInfo) = (files : Multiset GoFileInfo)
    ∧ s.processed.length = files.length
    ∧ (∀ f, s.processed.count f = files.count f) := by
  obtain ⟨hcons, hw, hcp, hdc⟩ := poolReach_invariant hreach
  have hd : 0 < s.done := by omega
  obtain ⟨hcl, hq⟩ := hdc hd
  have hp : s.pending = [] := hcp hcl
  rw [hp, hq] at hcons
  simp only [Multiset.coe_nil, zero_add] at hcons
  refine ⟨rfl, by omega, hcons, ?_, ?_⟩
  · have := congrArg Multiset.card hcons
    simpa using this
  · intro f
    have := congrArg (Multiset.count f) hcons
    simpa using this

/-- Witness for C2: a complete run over one file with one worker —
enqueue, close, dequeue, exit — after which the processed counts match
the listing's. -/
theorem c2_orchestrator_each_file_once_witness :
    ((PoolState.mk [] [] true 0 1 [⟨"a", 1⟩]).processed : Multiset GoFileInfo) =
      (([⟨"a", 1⟩] : List GoFileInfo) : Multiset GoFileInfo) := by
  have trace : PoolReach [⟨"a", 1⟩] 1 ⟨[], [], true, 0, 1, [⟨"a", 1⟩]⟩ :=
    Relation.ReflTransGen.tail
      (Relation.ReflTransGen.tail
        (Relation.ReflTransGen.tail
          (Relation.ReflTransGen.tail Relation.ReflTransGen.refl
            (PoolStep.enqueue ⟨"a", 1⟩ [] [] 1 0 []))
          (PoolStep.close [⟨"a", 1⟩] 1 0 []))
        (PoolStep.dequeue [] ⟨"a", 1⟩ [] true 1 0 [] one_pos))
      (PoolStep.exit [] 1 0 [⟨"a", 1⟩] one_pos)
  exact (c2_orchestrator_each_file_once [⟨"a", 1⟩] 1 (by decide) (by simp) _
    trace rfl).2.2.1

/-- C3: `downloadFile` updates the persisted ledger iff the transfer
succeeds: on success the ledger file holds exactly the old mapping with
`{path: written}` set; any change to the ledger file implies success; and
on each failure path — non-200 status, mkdir failure, create failure,
copy error, size mismatch — the ledger file is untouched and the local
file is, respectively, unchanged or left on disk (never deleted). -/
theorem c3_ledger_updated_iff_success (env : TransferEnv) (filePath : String)
    (ledgerFile : Option RawData) (localFile : Option (List Nat)) :
    let r := downloadFile env filePath ledgerFile localFile
    (∀ w, r.outcome = .success w →
        r.ledgerFile =
          saveDownloadState ⟨setEntry (loadDownloadState ledgerFile).Files filePath w⟩)
    ∧ (r.ledgerFile ≠ ledgerFile → ∃ w, r.outcome = .success w)
    ∧ (∀ code, r.outcome = .badStatus code →
        r.ledgerFile = ledgerFile ∧ r.localFile = localFile)
    ∧ (r.outcome = .mkdirFailed → r.ledgerFile = ledgerFile ∧ r.localFile = localFile)
    ∧ (r.outcome = .createFailed → r.ledgerFile = ledgerFile ∧ r.localFile = localFile)
    ∧ (r.outcome = .copyFailed → r.ledgerFile = ledgerFile ∧ r.localFile.isSome)
    ∧ (r.outcome = .sizeMismatch → r.ledgerFile = ledgerFile ∧ r.localFile.isSome) := by
  obtain ⟨reqOk, respOpt, mkdirOk, createOk, copyErrAt⟩ := env
  cases reqOk
  case false => simp [downloadFile]
  case true =>
  cases respOpt with
  | none => simp [downloadFile]
  | some resp =>
    by_cases hs : resp.statusCode = 200
    case neg => simp [downloadFile, hs]
    case pos =>
    cases mkdirOk
    case false => simp [downloadFile, hs]
    case true =>
    cases localFile with
    | none =>
      cases createOk
      case false => simp [downloadFile, hs]
      case true =>
      cases copyErrAt with
      | some k => simp [downloadFile, hs]
      | none =>
        by_cases hm : 0 < resp.contentLength ∧ (resp.body.length : Int) ≠ resp.contentLength
        · simp [downloadFile, hs, hm]
        · simp [downloadFile, hs, hm]
    | some contents =>
      by_cases hskip : 0 < resp.contentLength ∧ (contents.length : Int) = resp.contentLength
      case pos => simp [downloadFile, hs, hskip]
      case neg =>
      cases createOk
      case false => simp [downloadFile, hs, hskip]
      case true =>
      cases copyErrAt with
      | some k => simp [downloadFile, hs, hskip]
      | none =>
        by_cases hm : 0 < resp.contentLength ∧ (resp.body.length : Int) ≠ resp.contentLength
        · have hne : (contents.length : Int) ≠ resp.contentLength := fun h => hskip ⟨hm.1, h⟩
          simp [downloadFile, hs, hm, hskip, hne]
        · simp [downloadFile, hs, hm, hskip]

/-- Witness for C3: a 404 response leaves the (here malformed) ledger
file byte-for-byte untouched. -/
theorem c3_ledger_updated_iff_success_witness :
    (downloadFile ⟨true, some ⟨404, -1, []⟩, true, true, none⟩ "x"
        (some .malformed) none).ledgerFile = some .malformed :=
  ((c3_ledger_updated_iff_success ⟨true, some ⟨404, -1, []⟩, true, true, none⟩ "x"
      (some .malformed) none).2.2.1 404 rfl).1

/-- C4: past containment, the `/list` handler returns 404 when the
resolved path does not exist (or its stat fails), 400 when it is not a
directory, 500 with no partial results when any I/O error occurs during
the walk, and otherwise a listing holding exactly one record per
non-directory entry of the walked subtree — path relative to the
configured root, size as observed — with directories never emitted. -/
theorem c4_list_endpoint (root : Fs) (rel : List String) :
    (root.find? rel = none → listHandler root rel = .notFound)
    ∧ (root.find? rel = some .ioErr → listHandler root rel = .notFound)
    ∧ (∀ c, root.find? rel = some (.file c) → listHandler root rel = .badRequest)
    ∧ (∀ es, root.find? rel = some (.dir es) → (Fs.dir es).hasErr = true →
        listHandler root rel = .serverError)
    ∧ (∀ es, root.find? rel = some (.dir es) → (Fs.dir es).hasErr = false →
        (Fs.dir es).wfB = true →
        ∃ l, listHandler root rel = .ok l
          ∧ (∀ r, r ∈ l ↔ ∃ p, r.path = rel ++ p ∧ (Fs.dir es).isFileAt p r.size)
          ∧ (l.map FileRec.path).Nodup) := by
  refine ⟨fun h => by simp [listHandler, h], fun h => by simp [listHandler, h],
    fun c h => by simp [listHandler, h], fun es h herr => ?_, fun es h herr hwf => ?_⟩
  · have hw : walkFiles rel (Fs.dir es) = .error () :=
      (walkFiles_error_iff rel (Fs.dir es)).2 herr
    simp [listHandler, h, hw]
  · obtain ⟨l, hw⟩ : ∃ l, walkFiles rel (Fs.dir es) = .ok l := by
      cases hw : walkFiles rel (Fs.dir es) with
      | error e =>
        cases e
        exact absurd ((walkFiles_error_iff rel (Fs.dir es)).1 hw) (by simp [herr])
      | ok l => exact ⟨l, rfl⟩
    exact ⟨l, by simp [listHandler, h, hw],
      fun r => walkFiles_mem rel (Fs.dir es) l hw hwf r,
      walkFiles_nodup rel (Fs.dir es) l hw hwf⟩

/-- Witness for C4: listing the spec's example directory
`{a: 10 bytes, b/c: 20 bytes}` under `d` returns records characterised
exactly by the subtree's two files, with no duplicate paths. -/
theorem c4_list_endpoint_witness :
    ∃ l,
      listHandler
          (Fs.dir [("d",
            Fs.dir [("a", Fs.file (List.replicate 10 0)),
              ("b", Fs.dir [("c", Fs.file (List.replicate 20 0))])])])
          ["d"] = .ok l
        ∧ (∀ r, r ∈ l ↔ ∃ p, r.path = ["d"] ++ p ∧
            (Fs.dir [("a", Fs.file (List.replicate 10 0)),
              ("b", Fs.dir [("c", Fs.file (List.replicate 20 0))])]).isFileAt p r.size)
        ∧ (l.map FileRec.path).Nodup :=
  (c4_list_endpoint _ ["d"]).2.2.2.2 _ rfl rfl (by decide)

/-- C5: past containment, the `/download` handler returns 404 when the
target does not exist (or its stat fails), 400 and never a 200 when the
target is a directory, and otherwise streams the file's full contents
with the `Content-Length` header set to the file's exact size at stat
time (every 200 has header equal to the streamed body's length). -/
theorem c5_download_endpoint (root : Fs) (rel : List String) :
    (root.find? rel = none → downloadHandler root rel = .notFound)
    ∧ (root.find? rel = some .ioErr → downloadHandler root rel = .notFound)
    ∧ (∀ es, root.find? rel = some (.dir es) →
        downloadHandler root rel = .badRequest ∧
        ∀ n b, downloadHandler root rel ≠ .okFile n b)
    ∧ (∀ c, root.find? rel = some (.file c) →
        downloadHandler root rel = .okFile c.length c)
    ∧ (∀ n b, downloadHandler root rel = .okFile n b → n = b.length) := by
  refine ⟨fun h => ?_, fun h => ?_, fun es h => ?_, fun c h => ?_, fun n b h => ?_⟩
  · simp [downloadHandler, h]
  · simp [downloadHandler, h]
  · simp [downloadHandler, h]
  · simp [downloadHandler, h]
  · unfold downloadHandler at h
    rcases hf : root.find? rel with _ | t
    · rw [hf] at h; cases h
    · rw [hf] at h
      cases t with
      | file content => cases h; rfl
      | dir es => cases h
      | ioErr => cases h

/-- Witness for C5: downloading the two-byte file `f` streams its two
bytes with the header set to 2. -/
theorem c5_download_endpoint_witness :
    downloadHandler (Fs.dir [("f", Fs.file [7, 7]), ("d", Fs.dir [])]) ["f"] =
      .okFile 2 [7, 7] :=
  (c5_download_endpoint _ ["f"]).2.2.2.1 [7, 7] rfl

/-- C6: when a local file exists at the target path and its size equals
the positive expected size from `Content-Length`, the transfer is skipped
as success: the local file's contents are untouched, nothing is copied,
and the persisted ledger file is exactly as before. -/
theorem c6_skip_when_size_matches (env : TransferEnv) (filePath : String)
    (ledgerFile : Option RawData) (contents : List Nat) (resp : HttpResponse)
    (hreq : env.reqOk = true) (hresp : env.resp = some resp)
    (hstatus : resp.statusCode = 200) (hmk : env.mkdirOk = true)
    (hpos : 0 < resp.contentLength)
    (hsize : (contents.length : Int) = resp.contentLength) :
    downloadFile env filePath ledgerFile (some contents) =
      ⟨ledgerFile, some contents, .skipped⟩ := by
  simp [downloadFile, hreq, hresp, hstatus, hmk, hpos, hsize]

/-- Witness for C6: a complete three-byte local copy of a three-byte file
is skipped, leaving the (here malformed) ledger file and the local bytes
as they were. -/
theorem c6_skip_when_size_matches_witness :
    downloadFile ⟨true, some ⟨200, 3, [1, 2, 3]⟩, true, true, none⟩ "x"
        (some .malformed) (some [9, 9, 9]) =
      ⟨some .malformed, some [9, 9, 9], .skipped⟩ :=
  c6_skip_when_size_matches _ "x" (some .malformed) [9, 9, 9] ⟨200, 3, [1, 2, 3]⟩
    rfl rfl rfl rfl (by decide) (by decide)

/-- C7: ledger persistence round-trips: saving any ledger and reloading
it reproduces exactly the same path-to-size mapping. -/
theorem c7_ledger_roundtrip (s : DownloadState) :
    loadDownloadState (saveDownloadState s) = s := by
  obtain ⟨files⟩ := s
  simp only [saveDownloadState, loadDownloadState, marshalState, unmarshalState,
    List.lookup, beq_self_eq_true]
  congr 1
  induction files with
  | nil => rfl
  | cons a as ih =>
    cases a
    simp only [List.map_cons, List.filterMap_cons, ih]

/-- C8: `loadDownloadState` never fails the caller: an absent or
unreadable ledger file (`none`) and a malformed one both yield the empty
mapping rather than an error (the function is total by type). -/
theorem c8_load_never_fails :
    loadDownloadState none = ⟨[]⟩ ∧ loadDownloadState (some .malformed) = ⟨[]⟩ :=
  ⟨rfl, rfl⟩

/-- C9 counterexample: the claim says every task is enqueued before any
worker dequeues its first task.  The workers are started before the
enqueue loop, so with files `[a, b]` and one worker the run
enqueue-`a`, dequeue-`a` reaches a state in which `a` has been processed
while `b` still waits to be enqueued. -/
theorem c9_dequeue_before_all_enqueued :
    PoolReach [⟨"a", 1⟩, ⟨"b", 2⟩] 1
      ⟨[⟨"b", 2⟩], [], false, 1, 0, [⟨"a", 1⟩]⟩
    ∧ (PoolState.mk [⟨"b", 2⟩] [] false 1 0 [⟨"a", 1⟩]).processed ≠ []
    ∧ (PoolState.mk [⟨"b", 2⟩] [] false 1 0 [⟨"a", 1⟩]).pending ≠ [] := by
  refine ⟨?_, by simp, by simp⟩
  exact Relation.ReflTransGen.tail
    (Relation.ReflTransGen.tail Relation.ReflTransGen.refl
      (PoolStep.enqueue ⟨"a", 1⟩ [⟨"b", 2⟩] [] 1 0 []))
    (PoolStep.dequeue [⟨"b", 2⟩] ⟨"a", 1⟩ [] false 1 0 [] one_pos)

/-- C9 amended: every task is enqueued before the queue is closed, and
the buffer never outgrows the file count (the capacity `len(files)`
channel never blocks a send); workers may dequeue concurrently with the
enqueue loop. -/
theorem c9_all_enqueued_before_close (files : List GoFileInfo) (c : Nat)
    (s : PoolState) (h : PoolReach files c s) :
    (s.closed = true → s.pending = []) ∧ s.queue.length ≤ files.length := by
  obtain ⟨hcons, -, hcp, -⟩ := poolReach_invariant h
  refine ⟨hcp, ?_⟩
  have := congrArg Multiset.card hcons
  simp at this
  omega

/-- Witness for C9 amended: after enqueue and close of a one-file run,
nothing is pending. -/
theorem c9_all_enqueued_before_close_witness :
    (PoolState.mk [] [⟨"a", 1⟩] true 1 0 []).pending = [] := by
  have trace : PoolReach [⟨"a", 1⟩] 1 ⟨[], [⟨"a", 1⟩], true, 1, 0, []⟩ :=
    Relation.ReflTransGen.tail
      (Relation.ReflTransGen.tail Relation.ReflTransGen.refl
        (PoolStep.enqueue ⟨"a", 1⟩ [] [] 1 0 []))
      (PoolStep.close [⟨"a", 1⟩] 1 0 [])
  exact (c9_all_enqueued_before_close [⟨"a", 1⟩] 1 _ trace).1 rfl

/-- C10: the skip check fires only for a strictly positive
`Content-Length`: when it is zero or negative (absent is `-1`), an
existing local file is never skipped — even at matching size — and, when
create and copy succeed, it is truncated and rewritten from the response
body. -/
theorem c10_no_skip_without_positive_length (env : TransferEnv) (filePath : String)
    (ledgerFile : Option RawData) (contents : List Nat) (resp : HttpResponse)
    (hreq : env.reqOk = true) (hresp : env.resp = some resp)
    (hstatus : resp.statusCode = 200) (hmk : env.mkdirOk = true)
    (hnp : resp.contentLength ≤ 0) :
    (downloadFile env filePath ledgerFile (some contents)).outcome ≠ .skipped
    ∧ (env.createOk = true → env.copyErrAt = none →
        downloadFile env filePath ledgerFile (some contents) =
          ⟨saveDownloadState
              ⟨setEntry (loadDownloadState ledgerFile).Files filePath
                (resp.body.length : Int)⟩,
            some resp.body, .success (resp.body.length : Int)⟩) := by
  have hskip : ¬(0 < resp.contentLength ∧ (contents.length : Int) = resp.contentLength) :=
    fun h => absurd h.1 (not_lt.2 hnp)
  constructor
  · rcases hc : env.createOk <;> rcases hcp : env.copyErrAt <;>
      simp [downloadFile, hreq, hresp, hstatus, hmk, hskip, hc, hcp, hnp, not_lt.2 hnp]
  · intro hc hcp
    simp [downloadFile, hreq, hresp, hstatus, hmk, hskip, hc, hcp, not_lt.2 hnp]

/-- Witness for C10: an existing zero-byte copy of a zero-byte file
(`Content-Length` 0) is not skipped but re-downloaded. -/
theorem c10_no_skip_without_positive_length_witness :
    (downloadFile ⟨true, some ⟨200, 0, []⟩, true, true, none⟩ "x" none
        (some [])).outcome ≠ .skipped
    ∧ downloadFile ⟨true, some ⟨200, 0, []⟩, true, true, none⟩ "x" none (some []) =
        ⟨saveDownloadState ⟨setEntry (loadDownloadState none).Files "x" 0⟩,
          some [], .success 0⟩ :=
  ⟨(c10_no_skip_without_positive_length _ "x" none [] ⟨200, 0, []⟩
      rfl rfl rfl rfl (by decide)).1,
    (c10_no_skip_without_positive_length _ "x" none [] ⟨200, 0, []⟩
      rfl rfl rfl rfl (by decide)).2 rfl rfl⟩

end Fileshare
